import Mathlib

/-!
Shallow embedding of the MITLibraries/fml MARC 21 decoding library
(src/marc.go and the command-line caller in src/cmd/fml/main.go).

Modelling conventions:
* Go byte slices and Go strings are both modelled as `List Nat` (one entry
  per byte; all data relevant to the claims is ASCII).
* A Go function that can return an `error` is modelled with `Except GoErr`.
* A Go runtime abort (index out of range / slice bounds out of range) is
  modelled by an outer `Option`: a `none` result means the Go code panics.
  Indexing `b[i]` is in range iff `i < len(b)`; slicing `b[lo:hi]` is in
  range iff `0 ≤ lo ≤ hi ≤ len(b)` (the emitted record buffers are modelled
  with capacity equal to length).
* `strconv.Atoi` is modelled for the short digit strings the decoder feeds
  it (4 and 5 bytes, far below the overflow range): an optional sign
  followed by at least one decimal digit, anything else is a parse error.
* `strings.TrimSpace` is modelled over the ASCII whitespace bytes, which
  covers every byte value the library's fixtures and the claims exercise.
-/

namespace fml

/-- Go byte strings and byte slices: one `Nat` per byte. -/
abbrev Str := List Nat

/-- `rt = 0x1d`, the end-of-record byte (src/marc.go). -/
def rt : Nat := 29

/-- `st = 0x1f`, the end-of-subfield byte (src/marc.go). -/
def st : Nat := 31

/-- Index of the first occurrence of byte `b`, as in Go `bytes.IndexByte` /
`strings.Index` with a one-byte pattern (`none` for Go's `-1`). -/
def indexOfByte (b : Nat) : Str → Option Nat
  | [] => none
  | x :: xs => if x = b then some 0 else (indexOfByte b xs).map (· + 1)

/-- Go `bytes.Split(data, []byte{sep})` for a one-byte separator: always a
non-empty list of chunks, one more chunk than separators. -/
def splitOnByte (sep : Nat) : Str → List Str
  | [] => [[]]
  | b :: rest =>
    match splitOnByte sep rest with
    | [] => [[b]]
    | c :: cs => if b = sep then [] :: c :: cs else (b :: c) :: cs

/-- Decimal digit run parser used by the `strconv.Atoi` model: every byte
must be an ASCII digit and the run must be non-empty. -/
def digitsToNat : Str → Option Nat
  | [] => none
  | ds => go ds 0
where
  go : Str → Nat → Option Nat
    | [], acc => some acc
    | d :: ds, acc =>
      if 48 ≤ d ∧ d ≤ 57 then go ds (acc * 10 + (d - 48)) else none

/-- Model of Go `strconv.Atoi` on the short inputs the decoder passes it:
optional `+`/`-` sign then a non-empty digit run; `none` is a parse error. -/
def atoi (s : Str) : Option Int :=
  match s with
  | 43 :: rest => (digitsToNat rest).map (fun n => (n : Int))
  | 45 :: rest => (digitsToNat rest).map (fun n => -(n : Int))
  | _ => (digitsToNat s).map (fun n => (n : Int))

/-- Go slice expression `xs[a:b]` with `int` endpoints: `none` models the
"slice bounds out of range" panic. -/
def goSlice (xs : Str) (a b : Int) : Option Str :=
  if 0 ≤ a ∧ a ≤ b ∧ b ≤ (xs.length : Int) then
    some ((xs.drop a.toNat).take (b - a).toNat)
  else none

/-- ASCII whitespace, the byte-level fragment of Go `unicode.IsSpace`. -/
def isSpace (b : Nat) : Bool := b = 32 || (9 ≤ b && b ≤ 13)

/-- Drop leading whitespace bytes. -/
def trimLeft : Str → Str
  | [] => []
  | x :: xs => if isSpace x then trimLeft xs else x :: xs

/-- Model of Go `strings.TrimSpace` (ASCII fragment). -/
def trimSpace (s : Str) : Str := (trimLeft (trimLeft s).reverse).reverse

/-- `Leader` struct: the seven retained leader bytes (src/marc.go). -/
structure Leader where
  Status : Nat
  «Type» : Nat
  BibLevel : Nat
  Control : Nat
  EncodingLevel : Nat
  Form : Nat
  Multipart : Nat
deriving DecidableEq, Repr

/-- `ControlField` struct (src/marc.go). -/
structure ControlField where
  Tag : Str
  Value : Str
deriving DecidableEq, Repr

/-- `SubField` struct (src/marc.go). -/
structure SubField where
  Code : Str
  Value : Str
deriving DecidableEq, Repr

/-- `DataField` struct (src/marc.go), fields in source order. -/
structure DataField where
  Indicator1 : Str
  Indicator2 : Str
  Tag : Str
  SubFields : List SubField
deriving DecidableEq, Repr

/-- One element of `Record.Fields`.  The Go field slice has type
`[]interface{}` but the decoder only ever stores these two struct types,
so the closed two-case sum is a faithful model of the reachable values. -/
inductive RField where
  | control (cf : ControlField)
  | data (df : DataField)
deriving DecidableEq, Repr

/-- `Record` struct (src/marc.go): retained raw buffer, decoded fields in
directory order, and the leader. -/
structure Record where
  Data : Str
  Fields : List RField
  Leader : Leader
deriving DecidableEq, Repr

/-- The errors `scanIntoRecord` / `makeDataField` can return, one
constructor per distinct `errors.New` message in src/marc.go.  None of the
constructors carries any payload because every Go error here is a fixed
message string. -/
inductive GoErr where
  | couldNotDetermineRecordStart
  | couldNotDetermineLengthOfField
  | couldNotDetermineFieldStart
  | reportedFieldLengthIncorrect
  | invalidIndicators
  | extraneousFieldTerminator
deriving DecidableEq, Repr

/-- `Record.ControlField` method: outer loop over the requested tags, inner
loop over the record's fields, keeping control fields with matching tag. -/
def Record.ControlField (r : Record) (tags : List Str) : List fml.ControlField :=
  tags.foldl
    (fun acc t =>
      r.Fields.foldl
        (fun a f =>
          match f with
          | .control cf => if cf.Tag = t then a ++ [cf] else a
          | .data _ => a)
        acc)
    []

/-- `Record.DataField` method: outer loop over the requested tags, inner
loop over the record's fields, keeping data fields with matching tag. -/
def Record.DataField (r : Record) (tags : List Str) : List fml.DataField :=
  tags.foldl
    (fun acc t =>
      r.Fields.foldl
        (fun a f =>
          match f with
          | .control _ => a
          | .data df => if df.Tag = t then a ++ [df] else a)
        acc)
    []

/-- `DataField.SubField` method: outer loop over the requested codes, inner
loop over the field's subfields. -/
def DataField.SubField (d : DataField) (codes : List Str) : List fml.SubField :=
  codes.foldl
    (fun acc s =>
      d.SubFields.foldl
        (fun a f => if f.Code = s then a ++ [f] else a)
        acc)
    []

/-- `Record.ControlNum` method.  The Go body indexes
`r.ControlField("001")[0]`; `none` models the index-out-of-range abort that
happens when the record has no `"001"` field. -/
def Record.ControlNum (r : Record) : Option Str :=
  match r.ControlField [[48, 48, 49]] with
  | [] => none
  | cf :: _ => some (trimSpace cf.Value)

/-- `DataField.matches` (src/marc.go): tag equality plus per-indicator
match where `"*"` (byte 42) is a wildcard. -/
def DataField.matches (d : DataField) (tag ind1 ind2 : Str) : Bool :=
  decide (d.Tag = tag) &&
    (decide (ind1 = [42]) || decide (d.Indicator1 = ind1)) &&
    (decide (ind2 = [42]) || decide (d.Indicator2 = ind2))

/-- The indicator/subfield-code part of one `Filter` query as evaluated in
the `DataField` arm: `strings.Index(q, "|")`, then `q[ind+1]`, `q[ind+2]`
and `q[ind+4:]` when a pipe is present, else `q[3:]`.  `none` models the
out-of-range abort on a query that is too short after its pipe. -/
def pipeSplit (q : Str) : Option (Str × Str × Str) :=
  match indexOfByte 124 q with
  | some i =>
    match q.get? (i + 1), q.get? (i + 2) with
    | some a, some b =>
      if i + 4 ≤ q.length then some ([a], [b], q.drop (i + 4)) else none
    | _, _ => none
  | none => some ([42], [42], q.drop 3)

/-- The inner field loop of `Record.Filter` for one query `q` with tag
`q[:3]` already taken: returns the result groups this query contributes, in
field order; `none` models an abort inside the loop. -/
def filterFields (q tag : Str) : List RField → Option (List (List Str))
  | [] => some []
  | .control cf :: rest =>
    let groups := if cf.Tag = tag then [[cf.Value]] else []
    (filterFields q tag rest).map (fun gs => groups ++ gs)
  | .data df :: rest =>
    match pipeSplit q with
    | none => none
    | some (i1, i2, subs) =>
      let values :=
        if df.matches tag i1 i2 then
          if subs ≠ [] then
            (df.SubField (subs.map (fun c => [c]))).map (fun sf => sf.Value)
          else
            df.SubFields.map (fun sf => sf.Value)
        else []
      let groups := if values ≠ [] then [values] else []
      (filterFields q tag rest).map (fun gs => groups ++ gs)

/-- `Record.Filter` method: for each query, take `q[:3]` (abort if the
query is shorter than 3 bytes), run the field loop, and concatenate the
groups in query order. -/
def Record.Filter (r : Record) : List Str → Option (List (List Str))
  | [] => some []
  | q :: qs =>
    if 3 ≤ q.length then
      match filterFields q (q.take 3) r.Fields with
      | none => none
      | some gs => (Record.Filter r qs).map (fun rest => gs ++ rest)
    else none

/-- The subfield-building loop of `makeDataField`: split chunks are turned
into `SubField{code, value}` values; a zero-length chunk is the
"Extraneous field terminator" error. -/
def buildSubFields : List Str → Except GoErr (List SubField)
  | [] => .ok []
  | [] :: _ => .error .extraneousFieldTerminator
  | (x :: xs) :: cs =>
    match buildSubFields cs with
    | .error e => .error e
    | .ok rest => .ok (⟨[x], xs⟩ :: rest)

/-- `makeDataField` (src/marc.go): indicators from the first two bytes
(error on content of fewer than 3 bytes), then subfields from the content
from byte index 3 onward split on `st`. -/
def makeDataField (tag data : Str) : Except GoErr DataField :=
  if 2 < data.length then
    match data with
    | i1 :: i2 :: _ =>
      match buildSubFields (splitOnByte st (data.drop 3)) with
      | .error e => .error e
      | .ok sfs => .ok ⟨[i1], [i2], tag, sfs⟩
    | _ => .error .invalidIndicators
  else .error .invalidIndicators

/-- Field construction and tag dispatch inside the directory loop of
`scanIntoRecord`: tags with prefix `"00"` (`strings.HasPrefix`) become
control fields, everything else goes through `makeDataField`. -/
def fieldOf (tag fdata : Str) : Except GoErr RField :=
  if tag.take 2 = [48, 48] then .ok (.control ⟨tag, fdata⟩)
  else
    match makeDataField tag fdata with
    | .error e => .error e
    | .ok df => .ok (.data df)

/-- One iteration of the directory loop in `scanIntoRecord`, applied to a
12-byte directory chunk; `restRes` is the outcome of the remaining
iterations.  Errors and aborts in the current entry take precedence, as in
the Go loop. -/
def entryStep (data chunk : Str) (restRes : Option (Except GoErr (List RField))) :
    Option (Except GoErr (List RField)) :=
  match atoi ((chunk.drop 3).take 4) with
  | none => some (.error .couldNotDetermineLengthOfField)
  | some length =>
    match atoi (chunk.drop 7) with
    | none => some (.error .couldNotDetermineFieldStart)
    | some begin =>
      if (data.length : Int) ≤ begin + length - 1 then
        some (.error .reportedFieldLengthIncorrect)
      else
        match goSlice data begin (begin + length - 1) with
        | none => none
        | some fdata =>
          match fieldOf (chunk.take 3) fdata with
          | .error e => some (.error e)
          | .ok fld =>
            match restRes with
            | none => none
            | some (.error e) => some (.error e)
            | some (.ok flds) => some (.ok (fld :: flds))

/-- The directory loop of `scanIntoRecord`: `for len(dirs) >= 12 { ... }`.
A remainder of fewer than 12 bytes falls out of the loop. -/
def processDirs (data : Str) : Str → Option (Except GoErr (List RField))
  | d1 :: d2 :: d3 :: d4 :: d5 :: d6 :: d7 :: d8 :: d9 :: d10 :: d11 :: d12 :: rest =>
    entryStep data [d1, d2, d3, d4, d5, d6, d7, d8, d9, d10, d11, d12]
      (processDirs data rest)
  | _ => some (.ok [])

/-- The 12-byte directory chunks actually visited by the loop (same
recursion pattern as `processDirs`). -/
def dirChunks : Str → List Str
  | d1 :: d2 :: d3 :: d4 :: d5 :: d6 :: d7 :: d8 :: d9 :: d10 :: d11 :: d12 :: rest =>
    [d1, d2, d3, d4, d5, d6, d7, d8, d9, d10, d11, d12] :: dirChunks rest
  | _ => []

/-- `scanIntoRecord` (src/marc.go): raw-buffer copy, leader bytes by fixed
position, base address from `bytes[12:17]`, then the directory loop.
`none` models a runtime abort (leader access on a short buffer, or a base
address for which `bytes[start:]` / `bytes[24:start-1]` is out of range). -/
def scanIntoRecord (buf : Str) : Option (Except GoErr Record) :=
  match buf.get? 5, buf.get? 6, buf.get? 7, buf.get? 8,
      buf.get? 17, buf.get? 18, buf.get? 19 with
  | some s5, some s6, some s7, some s8, some s17, some s18, some s19 =>
    let leader : Leader := ⟨s5, s6, s7, s8, s17, s18, s19⟩
    match atoi ((buf.drop 12).take 5) with
    | none => some (.error .couldNotDetermineRecordStart)
    | some start =>
      match goSlice buf start buf.length with
      | none => none
      | some data =>
        match goSlice buf 24 (start - 1) with
        | none => none
        | some dirs =>
          match processDirs data dirs with
          | none => none
          | some (.error e) => some (.error e)
          | some (.ok flds) => some (.ok ⟨buf, flds, leader⟩)
  | _, _, _, _, _, _, _ => none

/-- `splitFunc` (src/marc.go), the `bufio.SplitFunc` driving the record
framer: `(advance, some token)` or `(0, none)` for "request more data /
stop". -/
def splitFunc (data : Str) (atEOF : Bool) : Nat × Option Str :=
  if atEOF ∧ data.length = 0 then (0, none)
  else if atEOF then (data.length, some data)
  else
    match indexOfByte rt data with
    | some i => (i + 1, some (data.take i))
    | none => (0, none)

/-- `bufio.MaxScanTokenSize`, the maximum token size of the default
scanner built by `NewMarcIterator` (which never calls `Buffer` to raise
it): 64 KiB. -/
def maxScanTokenSize : Nat := 65536

/-- One `Scan` call of the default-sized scanner over the not-yet-consumed
input.  The scanner buffers at most `maxScanTokenSize` bytes of the stream
(the window) and asks `splitFunc` for a token with more data pending; at
end of input — reachable only when the remainder fits the buffer — it asks
once more with `atEOF` set.  When the window fills without producing a
token (a terminator-free run of `maxScanTokenSize` bytes or more), `Scan`
fails with `ErrTooLong` and yields nothing: like end of input this is the
`none` outcome, ending the emitted sequence.  The underlying reader is
taken to report end of input on a separate read with no data, as
`os.File` — the reader the `fml` command hands to `NewMarcIterator` —
does. -/
def scanStep (remaining : Str) : Option (Str × Str) :=
  match splitFunc (remaining.take maxScanTokenSize) false with
  | (adv, some tok) => some (tok, remaining.drop adv)
  | _ =>
    if remaining.length < maxScanTokenSize then
      match splitFunc remaining true with
      | (adv, some tok) => some (tok, remaining.drop adv)
      | _ => none
    else none

/-- Scanner driver with fuel; every produced token consumes at least one
input byte, so fuel equal to the input length is always enough. -/
def scanAux : Nat → Str → List Str
  | 0, _ => []
  | fuel + 1, remaining =>
    match scanStep remaining with
    | some (tok, rest) => tok :: scanAux fuel rest
    | none => []

/-- All record buffers the framer emits for a finite input stream (the
sequence ends at a scanner error just as at end of input). -/
def frames (stream : Str) : List Str := scanAux stream.length stream

/-- Concrete record buffer: leader with base address 73, four directory
entries (`001`, `245`, one `650` with indicators ` 0` and subfield `x` =
`"J"`, one `650` with indicators ` 1` and subfield `x` = `"P"`), then the
data region.  The `245` field has indicators `10` and subfield `a` =
`"T"`; the `001` control field holds `"  92005291"`. -/
def rec1buf : Str :=
  [48, 48, 49, 48, 50, 110, 97, 109, 32, 32, 50, 50,
   48, 48, 48, 55, 51, 32, 32, 32, 52, 53, 48, 48] ++
  [48, 48, 49, 48, 48, 49, 49, 48, 48, 48, 48, 48] ++
  [50, 52, 53, 48, 48, 48, 54, 48, 48, 48, 49, 49] ++
  [54, 53, 48, 48, 48, 48, 54, 48, 48, 48, 49, 55] ++
  [54, 53, 48, 48, 48, 48, 54, 48, 48, 48, 50, 51] ++
  [30] ++
  ([32, 32, 57, 50, 48, 48, 53, 50, 57, 49] ++ [30]) ++
  [49, 48, 31, 97, 84, 30] ++
  [32, 48, 31, 120, 74, 30] ++
  [32, 49, 31, 120, 80, 30]

/-- The `Record` value `scanIntoRecord` produces for `rec1buf`. -/
def rec1 : Record :=
  { Data := rec1buf
    Fields :=
      [.control ⟨[48, 48, 49], [32, 32, 57, 50, 48, 48, 53, 50, 57, 49]⟩,
       .data ⟨[49], [48], [50, 52, 53], [⟨[97], [84]⟩]⟩,
       .data ⟨[32], [48], [54, 53, 48], [⟨[120], [74]⟩]⟩,
       .data ⟨[32], [49], [54, 53, 48], [⟨[120], [80]⟩]⟩]
    Leader := ⟨110, 97, 109, 32, 32, 32, 32⟩ }

/-- Concrete record buffer with base address 37 and a single `245` data
field (indicators `10`, subfield `a` = `"T"`); it has no `001` field. -/
def no001buf : Str :=
  [48, 48, 48, 52, 51, 110, 97, 109, 32, 32, 50, 50,
   48, 48, 48, 51, 55, 32, 32, 32, 52, 53, 48, 48] ++
  [50, 52, 53, 48, 48, 48, 54, 48, 48, 48, 48, 48] ++
  [30] ++
  [49, 48, 31, 97, 84, 30]

/-- The `Record` value `scanIntoRecord` produces for `no001buf`. -/
def no001rec : Record :=
  { Data := no001buf
    Fields := [.data ⟨[49], [48], [50, 52, 53], [⟨[97], [84]⟩]⟩]
    Leader := ⟨110, 97, 109, 32, 32, 32, 32⟩ }

/-- Concrete record buffer with base address 38, so its directory span
(bytes 24 through 36) is 13 bytes long: one whole `001` entry followed by
a dangling byte `90`.  The data region holds the one-byte `001` value
`"X"` and its field terminator. -/
def dangling13buf : Str :=
  [48, 48, 48, 52, 48, 110, 97, 109, 32, 32, 50, 50,
   48, 48, 48, 51, 56, 32, 32, 32, 52, 53, 48, 48] ++
  [48, 48, 49, 48, 48, 48, 50, 48, 48, 48, 48, 48] ++
  [90] ++ [30] ++
  [88, 30]

/-- The `Record` value `scanIntoRecord` produces for `dangling13buf`. -/
def dangling13rec : Record :=
  { Data := dangling13buf
    Fields := [.control ⟨[48, 48, 49], [88]⟩]
    Leader := ⟨110, 97, 109, 32, 32, 32, 32⟩ }

/-- Concrete record buffer whose single directory entry has tag `650`,
length 9 and start 0 while the data region is only 6 bytes long, so the
entry is out of bounds. -/
def oob650buf : Str :=
  [48, 48, 48, 52, 51, 110, 97, 109, 32, 32, 50, 50,
   48, 48, 48, 51, 55, 32, 32, 32, 52, 53, 48, 48] ++
  [54, 53, 48, 48, 48, 48, 57, 48, 48, 48, 48, 48] ++
  [30] ++
  [49, 48, 31, 97, 84, 30]

/-- Same buffer as `oob650buf` but with directory tag `999`. -/
def oob999buf : Str :=
  [48, 48, 48, 52, 51, 110, 97, 109, 32, 32, 50, 50,
   48, 48, 48, 51, 55, 32, 32, 32, 52, 53, 48, 48] ++
  [57, 57, 57, 48, 48, 48, 57, 48, 48, 48, 48, 48] ++
  [30] ++
  [49, 48, 31, 97, 84, 30]

/-- A data field with subfields `a` = `"1"` and `b` = `"2"`, in that
order. -/
def df260 : DataField :=
  ⟨[49], [48], [50, 54, 48], [⟨[97], [49]⟩, ⟨[98], [50]⟩]⟩

deriving instance DecidableEq for Except

theorem indexOfByte_none (b : Nat) (s : Str) (h : b ∉ s) : indexOfByte b s = none := by
  induction s with
  | nil => rfl
  | cons x xs ih =>
    simp only [List.mem_cons, not_or] at h
    simp [indexOfByte, Ne.symm h.1, ih h.2]

theorem not_mem_of_indexOfByte_none (b : Nat) (s : Str) (h : indexOfByte b s = none) :
    b ∉ s := by
  induction s with
  | nil => simp
  | cons x xs ih =>
    simp only [indexOfByte] at h
    by_cases hx : x = b
    · rw [if_pos hx] at h; exact absurd h (by simp)
    · rw [if_neg hx] at h
      rcases e : indexOfByte b xs with _ | j
      · simp [Ne.symm hx, ih e]
      · rw [e] at h; exact absurd h (by simp)

theorem indexOfByte_take (b : Nat) (s : Str) (i : Nat) (h : indexOfByte b s = some i) :
    b ∉ s.take i := by
  induction s generalizing i with
  | nil => simp [indexOfByte] at h
  | cons x xs ih =>
    simp only [indexOfByte] at h
    by_cases hx : x = b
    · rw [if_pos hx] at h
      obtain rfl : (0 : Nat) = i := by simpa using h
      simp
    · rw [if_neg hx] at h
      rcases e : indexOfByte b xs with _ | j
      · rw [e] at h; exact absurd h (by simp)
      · rw [e] at h
        obtain rfl : j + 1 = i := by simpa using h
        simp only [List.take_succ_cons, List.mem_cons, not_or]
        exact ⟨Ne.symm hx, ih j e⟩

theorem indexOfByte_append (b : Nat) (r u : Str) (h : b ∉ r) :
    indexOfByte b (r ++ b :: u) = some r.length := by
  induction r with
  | nil => simp [indexOfByte]
  | cons x xs ih =>
    simp only [List.mem_cons, not_or] at h
    simp [indexOfByte, Ne.symm h.1, ih h.2]

theorem scanAux_nil (fuel : Nat) : scanAux fuel [] = [] := by
  cases fuel <;> rfl

theorem indexOfByte_lt_length (b : Nat) (s : Str) (i : Nat) (h : indexOfByte b s = some i) :
    i < s.length := by
  induction s generalizing i with
  | nil => simp [indexOfByte] at h
  | cons x xs ih =>
    simp only [indexOfByte] at h
    by_cases hx : x = b
    · rw [if_pos hx] at h
      obtain rfl : (0 : Nat) = i := by simpa using h
      simp
    · rw [if_neg hx] at h
      rcases e : indexOfByte b xs with _ | j
      · rw [e] at h
        exact absurd h (by simp)
      · rw [e] at h
        obtain rfl : j + 1 = i := by simpa using h
        have := ih j e
        simp only [List.length_cons]
        omega

theorem splitFunc_eof (s : Str) (h : s ≠ []) : splitFunc s true = (s.length, some s) := by
  simp [splitFunc, List.length_eq_zero, h]

theorem splitFunc_noeof_none (s : Str) (h : indexOfByte rt s = none) :
    splitFunc s false = (0, none) := by
  simp [splitFunc, h]

theorem splitFunc_noeof_some (s : Str) (i : Nat) (h : indexOfByte rt s = some i) :
    splitFunc s false = (i + 1, some (s.take i)) := by
  simp [splitFunc, h]

theorem scanAux_none (s : Str) (h : scanStep s = none) (fuel : Nat) : scanAux fuel s = [] := by
  cases fuel with
  | zero => rfl
  | succ f => simp [scanAux, h]

theorem scanStep_inv (s tok rest : Str) (h : scanStep s = some (tok, rest)) :
    rest.length < s.length ∧ rt ∉ tok := by
  rcases e : indexOfByte rt (s.take maxScanTokenSize) with _ | i
  · by_cases hlt : s.length < maxScanTokenSize
    · rcases eq_or_ne s [] with rfl | hnil
      · rw [show scanStep [] = none from rfl] at h
        exact absurd h (by simp)
      · have hval : scanStep s = some (s, s.drop s.length) := by
          simp only [scanStep, splitFunc_noeof_none _ e, if_pos hlt, splitFunc_eof s hnil]
        have heq := hval.symm.trans h
        simp only [Option.some.injEq, Prod.mk.injEq] at heq
        obtain ⟨h1, h2⟩ := heq
        have hwin : s.take maxScanTokenSize = s := List.take_of_length_le (by omega)
        rw [hwin] at e
        have hpos : 0 < s.length := List.length_pos.mpr hnil
        rw [← h1, ← h2]
        constructor
        · simp only [List.drop_length, List.length_nil]
          omega
        · exact not_mem_of_indexOfByte_none rt s e
    · have hval : scanStep s = none := by
        simp only [scanStep, splitFunc_noeof_none _ e, if_neg hlt]
      rw [hval] at h
      exact absurd h (by simp)
  · have hval : scanStep s = some ((s.take maxScanTokenSize).take i, s.drop (i + 1)) := by
      simp only [scanStep, splitFunc_noeof_some _ _ e]
    have heq := hval.symm.trans h
    simp only [Option.some.injEq, Prod.mk.injEq] at heq
    obtain ⟨h1, h2⟩ := heq
    have hi : i < (s.take maxScanTokenSize).length := indexOfByte_lt_length rt _ i e
    have hi2 : i < s.length := by
      have hle : (s.take maxScanTokenSize).length ≤ s.length := by simp
      omega
    rw [← h1, ← h2]
    constructor
    · simp only [List.length_drop]
      omega
    · exact indexOfByte_take rt _ i e

theorem scanAux_fuel (fuel : Nat) : ∀ s : Str, s.length ≤ fuel → scanAux fuel s = frames s := by
  induction fuel using Nat.strong_induction_on with
  | _ fuel ih =>
    intro s hs
    rcases hstep : scanStep s with _ | ⟨tok, rest⟩
    · rw [scanAux_none s hstep, frames, scanAux_none s hstep]
    · obtain ⟨hlt, -⟩ := scanStep_inv s tok rest hstep
      have hpos : 0 < s.length := by omega
      obtain ⟨f, rfl⟩ : ∃ f, fuel = f + 1 := ⟨fuel - 1, by omega⟩
      obtain ⟨m, hm⟩ : ∃ m, s.length = m + 1 := ⟨s.length - 1, by omega⟩
      have h1 : scanAux (f + 1) s = tok :: scanAux f rest := by simp [scanAux, hstep]
      have h2 : frames s = tok :: scanAux m rest := by
        rw [frames, hm]; simp [scanAux, hstep]
      have e1 : scanAux f rest = frames rest := ih f (by omega) rest (by omega)
      have e2 : scanAux m rest = frames rest := ih m (by omega) rest (by omega)
      rw [h1, h2, e1, e2]

theorem frames_cons (r u : Str) (h : rt ∉ r) (hrlen : r.length < maxScanTokenSize) :
    frames (r ++ rt :: u) = r :: frames u := by
  have hwin : (r ++ rt :: u).take maxScanTokenSize =
      r ++ rt :: u.take (maxScanTokenSize - r.length - 1) := by
    rw [List.take_append_eq_append_take, List.take_of_length_le (by omega)]
    obtain ⟨k, hk⟩ : ∃ k, maxScanTokenSize - r.length = k + 1 :=
      ⟨maxScanTokenSize - r.length - 1, by omega⟩
    have hk2 : k = maxScanTokenSize - r.length - 1 := by omega
    rw [hk, List.take_succ_cons, hk2]
    simp
  have hidx : indexOfByte rt ((r ++ rt :: u).take maxScanTokenSize) = some r.length := by
    rw [hwin]
    exact indexOfByte_append rt r _ h
  have htok : ((r ++ rt :: u).take maxScanTokenSize).take r.length = r := by
    rw [List.take_take]
    have hmin : min r.length maxScanTokenSize = r.length := by omega
    rw [hmin]
    simp
  have hdrop : (r ++ rt :: u).drop (r.length + 1) = u := by
    have h2 : r ++ rt :: u = (r ++ [rt]) ++ u := by simp
    rw [h2]
    have hl : (r ++ [rt]).length = r.length + 1 := by simp
    rw [← hl]
    exact List.drop_left (r ++ [rt]) u
  have hstep : scanStep (r ++ rt :: u) = some (r, u) := by
    simp only [scanStep, splitFunc_noeof_some _ _ hidx, htok, hdrop]
  have hlen2 : (r ++ rt :: u).length = (r.length + u.length) + 1 := by simp; omega
  rw [frames, hlen2]
  simp only [scanAux, hstep]
  rw [scanAux_fuel _ u (by omega)]

theorem frames_trailing (t : Str) (h : rt ∉ t) (hne : t ≠ [])
    (hlen : t.length < maxScanTokenSize) : frames t = [t] := by
  have hwin : t.take maxScanTokenSize = t := List.take_of_length_le (by omega)
  have hidx : indexOfByte rt t = none := indexOfByte_none rt t h
  have hstep : scanStep t = some (t, []) := by
    simp only [scanStep, hwin, splitFunc_noeof_none _ hidx, if_pos hlen,
      splitFunc_eof t hne, List.drop_length]
  have hpos : 0 < t.length := List.length_pos.mpr hne
  obtain ⟨m, hm⟩ : ∃ m, t.length = m + 1 := ⟨t.length - 1, by omega⟩
  rw [frames, hm]
  simp [scanAux, hstep, scanAux_nil]

theorem frames_too_long (r u : Str) (h : rt ∉ r) (hlen : maxScanTokenSize ≤ r.length) :
    frames (r ++ rt :: u) = [] := by
  have hwin : (r ++ rt :: u).take maxScanTokenSize = r.take maxScanTokenSize := by
    rw [List.take_append_eq_append_take]
    have hz : maxScanTokenSize - r.length = 0 := by omega
    rw [hz]
    simp
  have hidx : indexOfByte rt ((r ++ rt :: u).take maxScanTokenSize) = none := by
    rw [hwin]
    exact indexOfByte_none rt _ (fun hm => h (List.take_subset _ _ hm))
  have hlen2 : ¬ (r ++ rt :: u).length < maxScanTokenSize := by
    simp only [List.length_append, List.length_cons]
    omega
  have hstep : scanStep (r ++ rt :: u) = none := by
    simp only [scanStep, splitFunc_noeof_none _ hidx, if_neg hlen2]
  rw [frames]
  exact scanAux_none _ hstep _

theorem frames_no_terminator (s : Str) : ∀ b ∈ frames s, rt ∉ b := by
  generalize hn : s.length = n
  induction n using Nat.strong_induction_on generalizing s with
  | _ n ih =>
    intro b hb
    rcases hstep : scanStep s with _ | ⟨tok, rest⟩
    · rw [frames, scanAux_none s hstep] at hb
      simp at hb
    · obtain ⟨hlt, htok⟩ := scanStep_inv s tok rest hstep
      have hpos : 0 < s.length := by omega
      obtain ⟨m, hm⟩ : ∃ m, s.length = m + 1 := ⟨s.length - 1, by omega⟩
      rw [frames, hm] at hb
      simp only [scanAux, hstep] at hb
      rw [scanAux_fuel _ rest (by omega)] at hb
      rcases List.mem_cons.mp hb with rfl | hb
      · exact htok
      · exact ih rest.length (by omega) rest rfl b hb

/-- C8 (amended): for streams whose records are each shorter than the
scanner's 64 KiB `MaxScanTokenSize` cap, the framer emits one buffer per
record — the record's bytes up to and excluding the `0x1D` terminator —
no emitted buffer contains the terminator, input ending exactly at a
terminator ends the sequence cleanly, and trailing unterminated bytes
(shorter than the cap) are emitted as one final buffer; but a record of
`MaxScanTokenSize` bytes or more is never emitted: the scan stops with
`ErrTooLong` before yielding it. -/
theorem framer_splits (rs : List Str) (t : Str)
    (hrs : ∀ r ∈ rs, rt ∉ r ∧ r.length < maxScanTokenSize)
    (ht : rt ∉ t) (htne : t ≠ []) (htlen : t.length < maxScanTokenSize) :
    frames (rs.flatMap (fun r => r ++ [rt])) = rs ∧
    frames (rs.flatMap (fun r => r ++ [rt]) ++ t) = rs ++ [t] ∧
    (∀ s b, b ∈ frames s → rt ∉ b) ∧
    (∀ r u : Str, rt ∉ r → maxScanTokenSize ≤ r.length → frames (r ++ rt :: u) = []) := by
  refine ⟨?_, ?_, fun s => frames_no_terminator s, fun r u hr hl => frames_too_long r u hr hl⟩
  · induction rs with
    | nil => rfl
    | cons r rs ih =>
      have h1 := hrs r (by simp)
      have heq : (r :: rs).flatMap (fun r => r ++ [rt]) =
          r ++ rt :: rs.flatMap (fun r => r ++ [rt]) := by simp
      rw [heq, frames_cons r _ h1.1 h1.2]
      rw [ih (fun x hx => hrs x (List.mem_cons_of_mem r hx))]
  · induction rs with
    | nil =>
      simp only [List.flatMap_nil, List.nil_append]
      exact frames_trailing t ht htne htlen
    | cons r rs ih =>
      have h1 := hrs r (by simp)
      have heq : (r :: rs).flatMap (fun r => r ++ [rt]) ++ t =
          r ++ rt :: (rs.flatMap (fun r => r ++ [rt]) ++ t) := by simp
      rw [heq, frames_cons r _ h1.1 h1.2]
      rw [ih (fun x hx => hrs x (List.mem_cons_of_mem r hx))]
      simp

/-- Witness for `framer_splits` at a concrete two-record stream. -/
theorem framer_splits_witness :
    frames ([97] ++ [rt]) = [[97]] ∧ frames ([97] ++ [rt] ++ [98]) = [[97], [98]] := by
  have h := framer_splits [[97]] [98] (by decide) (by decide) (by decide) (by decide)
  exact ⟨by simpa using h.1, by simpa using h.2.1⟩

/-- C8 (counterexample to the claim as stated): a stream holding one
terminated record of `MaxScanTokenSize` (64 Ki) bytes yields no buffer at
all — the scan fails with `ErrTooLong` before the record is emitted —
whereas the claim requires one buffer per record for every finite input
stream. -/
theorem framer_toolong_cex :
    frames (List.replicate maxScanTokenSize 97 ++ [rt]) = [] ∧
    ([] : List Str) ≠ [List.replicate maxScanTokenSize 97] := by
  constructor
  · have hmem : rt ∉ List.replicate maxScanTokenSize 97 := by
      intro hm
      have h97 := List.eq_of_mem_replicate hm
      simp [rt] at h97
    have hlen : maxScanTokenSize ≤ (List.replicate maxScanTokenSize 97).length := by simp
    have h := frames_too_long (List.replicate maxScanTokenSize 97) [] hmem hlen
    simpa using h
  · simp

theorem processDirs_short (data dirs : Str) (h : dirs.length < 12) :
    processDirs data dirs = some (Except.ok []) := by
  rcases dirs with _ | ⟨d1, dirs⟩; · rfl
  rcases dirs with _ | ⟨d2, dirs⟩; · rfl
  rcases dirs with _ | ⟨d3, dirs⟩; · rfl
  rcases dirs with _ | ⟨d4, dirs⟩; · rfl
  rcases dirs with _ | ⟨d5, dirs⟩; · rfl
  rcases dirs with _ | ⟨d6, dirs⟩; · rfl
  rcases dirs with _ | ⟨d7, dirs⟩; · rfl
  rcases dirs with _ | ⟨d8, dirs⟩; · rfl
  rcases dirs with _ | ⟨d9, dirs⟩; · rfl
  rcases dirs with _ | ⟨d10, dirs⟩; · rfl
  rcases dirs with _ | ⟨d11, dirs⟩; · rfl
  rcases dirs with _ | ⟨d12, dirs⟩; · rfl
  simp at h; omega

theorem dirChunks_short (dirs : Str) (h : dirs.length < 12) : dirChunks dirs = [] := by
  rcases dirs with _ | ⟨d1, dirs⟩; · rfl
  rcases dirs with _ | ⟨d2, dirs⟩; · rfl
  rcases dirs with _ | ⟨d3, dirs⟩; · rfl
  rcases dirs with _ | ⟨d4, dirs⟩; · rfl
  rcases dirs with _ | ⟨d5, dirs⟩; · rfl
  rcases dirs with _ | ⟨d6, dirs⟩; · rfl
  rcases dirs with _ | ⟨d7, dirs⟩; · rfl
  rcases dirs with _ | ⟨d8, dirs⟩; · rfl
  rcases dirs with _ | ⟨d9, dirs⟩; · rfl
  rcases dirs with _ | ⟨d10, dirs⟩; · rfl
  rcases dirs with _ | ⟨d11, dirs⟩; · rfl
  rcases dirs with _ | ⟨d12, dirs⟩; · rfl
  simp at h; omega

theorem cons12_of_le_length (l : Str) (h : 12 ≤ l.length) :
    ∃ d1 d2 d3 d4 d5 d6 d7 d8 d9 d10 d11 d12 rest,
      l = d1 :: d2 :: d3 :: d4 :: d5 :: d6 :: d7 :: d8 :: d9 :: d10 :: d11 :: d12 :: rest := by
  rcases l with _ | ⟨d1, l⟩; · simp at h
  rcases l with _ | ⟨d2, l⟩; · simp at h
  rcases l with _ | ⟨d3, l⟩; · simp at h
  rcases l with _ | ⟨d4, l⟩; · simp at h
  rcases l with _ | ⟨d5, l⟩; · simp at h
  rcases l with _ | ⟨d6, l⟩; · simp at h
  rcases l with _ | ⟨d7, l⟩; · simp at h
  rcases l with _ | ⟨d8, l⟩; · simp at h
  rcases l with _ | ⟨d9, l⟩; · simp at h
  rcases l with _ | ⟨d10, l⟩; · simp at h
  rcases l with _ | ⟨d11, l⟩; · simp at h
  rcases l with _ | ⟨d12, l⟩; · simp at h
  exact ⟨d1, d2, d3, d4, d5, d6, d7, d8, d9, d10, d11, d12, l, rfl⟩

theorem entryStep_ok_inv (data chunk : Str) (restRes : Option (Except GoErr (List RField)))
    (flds : List RField) (h : entryStep data chunk restRes = some (Except.ok flds)) :
    (∀ l b : Int, atoi ((chunk.drop 3).take 4) = some l → atoi (chunk.drop 7) = some b →
      b + l - 1 ≤ (data.length : Int)) ∧
    ∃ tl, restRes = some (Except.ok tl) := by
  rcases ha : atoi ((chunk.drop 3).take 4) with _ | l0
  · simp [entryStep, ha] at h
  rcases hb0 : atoi (chunk.drop 7) with _ | b0
  · simp [entryStep, ha, hb0] at h
  by_cases hle : (data.length : Int) ≤ b0 + l0 - 1
  · simp [entryStep, ha, hb0, hle] at h
  rcases hs : goSlice data b0 (b0 + l0 - 1) with _ | fdata
  · simp [entryStep, ha, hb0, hle, hs] at h
  rcases hf : fieldOf (chunk.take 3) fdata with e | fld
  · simp [entryStep, ha, hb0, hle, hs, hf] at h
  rcases hr : restRes with _ | er
  · simp [entryStep, ha, hb0, hle, hs, hf, hr] at h
  rcases er with e | tl
  · simp [entryStep, ha, hb0, hle, hs, hf, hr] at h
  constructor
  · intro l b hl hb
    obtain rfl : l0 = l := Option.some.inj hl
    obtain rfl : b0 = b := Option.some.inj hb
    omega
  · exact ⟨tl, rfl⟩

/-- C1 (amended): the directory loop succeeds only when every visited
12-byte entry with parsed integers `length` and `start` satisfies
`start + length - 1 ≤ len(data)` (the code enforces the strictly stronger
`start + length - 1 < len(data)`); and when the loop reaches an entry
whose parsed integers violate the bound, it returns the fixed bounds error
`"Reported field length incorrect"` — which carries no tag — without
reading the data region. -/
theorem scan_bounds_directory (data dirs : Str) :
    (∀ flds, processDirs data dirs = some (Except.ok flds) →
      ∀ chunk ∈ dirChunks dirs, ∀ l b : Int,
        atoi ((chunk.drop 3).take 4) = some l → atoi (chunk.drop 7) = some b →
        b + l - 1 ≤ (data.length : Int)) ∧
    (∀ d1 d2 d3 d4 d5 d6 d7 d8 d9 d10 d11 d12 rest,
      dirs = d1 :: d2 :: d3 :: d4 :: d5 :: d6 :: d7 :: d8 :: d9 :: d10 :: d11 :: d12 :: rest →
      ∀ l b : Int,
        atoi [d4, d5, d6, d7] = some l → atoi [d8, d9, d10, d11, d12] = some b →
        (data.length : Int) < b + l - 1 →
        processDirs data dirs = some (Except.error GoErr.reportedFieldLengthIncorrect)) := by
  constructor
  · generalize hn : dirs.length = n
    induction n using Nat.strong_induction_on generalizing dirs with
    | _ n ih =>
      intro flds hok chunk hchunk l b hl hb
      by_cases h12 : 12 ≤ dirs.length
      · obtain ⟨d1, d2, d3, d4, d5, d6, d7, d8, d9, d10, d11, d12, rest, rfl⟩ :=
          cons12_of_le_length dirs h12
        simp only [processDirs] at hok
        obtain ⟨hbound, tl, htl⟩ := entryStep_ok_inv _ _ _ _ hok
        simp only [dirChunks, List.mem_cons] at hchunk
        rcases hchunk with rfl | hmem
        · exact hbound l b hl hb
        · refine ih rest.length ?_ rest rfl tl htl chunk hmem l b hl hb
          simp at hn
          omega
      · rw [dirChunks_short dirs (by omega)] at hchunk
        simp at hchunk
  · intro d1 d2 d3 d4 d5 d6 d7 d8 d9 d10 d11 d12 rest hdirs l b hl hb hviol
    subst hdirs
    have hc1 : ((([d1, d2, d3, d4, d5, d6, d7, d8, d9, d10, d11, d12] : Str).drop 3).take 4) =
        [d4, d5, d6, d7] := rfl
    have hc2 : (([d1, d2, d3, d4, d5, d6, d7, d8, d9, d10, d11, d12] : Str).drop 7) =
        [d8, d9, d10, d11, d12] := rfl
    simp only [processDirs, entryStep, hc1, hc2, hl, hb]
    rw [if_pos (le_of_lt hviol)]

/-- Witness for `scan_bounds_directory` at the decoded directory of
`rec1buf` (first entry: length 11, start 0, data region of 29 bytes). -/
theorem scan_bounds_directory_witness :
    (0 : Int) + 11 - 1 ≤ ((rec1buf.drop 73).length : Int) :=
  (scan_bounds_directory (rec1buf.drop 73) ((rec1buf.drop 24).take 48)).1
    rec1.Fields (by decide)
    [48, 48, 49, 48, 48, 49, 49, 48, 48, 48, 48, 48] (by decide)
    11 0 (by decide) (by decide)

/-- C1 (counterexample to the claim as stated): two records that differ
only in the tag of their bound-violating directory entry (`650` versus
`999`) decode to the *same* error value, the constant message
`"Reported field length incorrect"`; the bounds error therefore does not
name the tag. -/
theorem bounds_error_tagless_cex :
    scanIntoRecord oob650buf = some (Except.error GoErr.reportedFieldLengthIncorrect) ∧
    scanIntoRecord oob999buf = some (Except.error GoErr.reportedFieldLengthIncorrect) ∧
    (oob650buf.drop 24).take 3 ≠ (oob999buf.drop 24).take 3 := by decide

/-- C2: `scanIntoRecord` on a 10-byte buffer (shorter than the 24-byte
leader) aborts with an index-out-of-range panic while reading the leader
bytes — modelled as the `none` outcome — instead of returning the typed
error the claim requires. -/
theorem short_buffer_aborts : scanIntoRecord (List.replicate 10 48) = none := by decide

theorem take_twelve_cons (k d1 d2 d3 d4 d5 d6 d7 d8 d9 d10 d11 d12 : Nat) (rest : Str) :
    ((d1 :: d2 :: d3 :: d4 :: d5 :: d6 :: d7 :: d8 :: d9 :: d10 :: d11 :: d12 :: rest).take
        (k + 12)) =
      d1 :: d2 :: d3 :: d4 :: d5 :: d6 :: d7 :: d8 :: d9 :: d10 :: d11 :: d12 :: rest.take k := by
  have h1 : k + 12 = k + 1 + 1 + 1 + 1 + 1 + 1 + 1 + 1 + 1 + 1 + 1 + 1 := by omega
  rw [h1]
  simp [List.take_succ_cons]

/-- C3 (amended): the directory loop processes only the whole 12-byte
entries and silently ignores any trailing remainder of fewer than 12
bytes — decoding a directory span whose length is not a multiple of 12
behaves exactly like decoding its truncation to a multiple of 12, with no
malformed-directory error. -/
theorem dirs_remainder_ignored (data dirs : Str) :
    processDirs data dirs = processDirs data (dirs.take (12 * (dirs.length / 12))) := by
  generalize hn : dirs.length = n
  induction n using Nat.strong_induction_on generalizing dirs with
  | _ n ih =>
    by_cases h12 : 12 ≤ dirs.length
    · obtain ⟨d1, d2, d3, d4, d5, d6, d7, d8, d9, d10, d11, d12, rest, rfl⟩ :=
        cons12_of_le_length dirs h12
      rw [← hn]
      have hlen :
          (d1 :: d2 :: d3 :: d4 :: d5 :: d6 :: d7 :: d8 :: d9 :: d10 :: d11 :: d12 ::
            rest).length = rest.length + 12 := by
        simp
      rw [hlen]
      have hdiv : 12 * ((rest.length + 12) / 12) = 12 * (rest.length / 12) + 12 := by omega
      rw [hdiv, take_twelve_cons]
      simp only [processDirs]
      rw [← ih rest.length (by simp at hn; omega) rest rfl]
    · rw [processDirs_short data dirs (by omega), ← hn]
      have hz : 12 * (dirs.length / 12) = 0 := by omega
      rw [hz, List.take_zero]
      rfl

/-- C3 (counterexample to the claim as stated): `dangling13buf` has a
13-byte directory span (not a multiple of 12, with a dangling 1-byte
partial entry), yet `scanIntoRecord` decodes it successfully instead of
returning a malformed-directory error. -/
theorem dangling_directory_cex :
    ((dangling13buf.drop 24).take 13).length % 12 ≠ 0 ∧
    scanIntoRecord dangling13buf = some (Except.ok dangling13rec) := by decide

/-- C9: a successfully decoded record retains its raw buffer byte for
byte: `Record.Data` equals the buffer the framer emitted.  The model is a
pure value copy, matching the Go code's `append([]byte(nil), bytes...)`
copy, which no later framer advance can alias. -/
theorem record_data_retained (buf : Str) (rec : Record)
    (h : scanIntoRecord buf = some (Except.ok rec)) : rec.Data = buf := by
  simp only [scanIntoRecord] at h
  repeat' split at h
  all_goals simp at h
  rw [← h]

/-- Witness for `record_data_retained` at the concrete record `rec1buf`. -/
theorem record_data_retained_witness : rec1.Data = rec1buf :=
  record_data_retained rec1buf rec1 (by decide)

/-- C4 (amended): `ControlNum` is determined by the head of
`ControlField("001")`: with no `"001"` field it aborts with an
index-out-of-range panic (the `none` outcome) rather than returning a
not-found error — it never silently returns an empty string for a missing
field — and with at least one `"001"` field it returns the
whitespace-trimmed value of the first one. -/
theorem controlNum_first_001 (r : Record) :
    r.ControlNum = (r.ControlField [[48, 48, 49]]).head?.map (fun cf => trimSpace cf.Value) := by
  rcases e : r.ControlField [[48, 48, 49]] with _ | ⟨cf, rest⟩ <;>
    simp [Record.ControlNum, e]

/-- C4 (counterexample to the claim as stated): the decoded record
`no001rec` has no `"001"` field, and `ControlNum` on it aborts (the `none`
outcome models the Go index-out-of-range panic) instead of returning a
not-found condition to the caller. -/
theorem controlNum_missing_cex :
    Record.ControlNum no001rec = none ∧
    scanIntoRecord no001buf = some (Except.ok no001rec) := by decide

/-- C5 (amended): on a record with one `245` (subfield `a`), two `650`s
(each with subfield `x`) and no `100` field, `Filter("245a","650x","100")`
returns three groups — the `245` group and one group per matching `650` —
while the unmatched `"100"` query contributes no group at all (rather
than an empty third slot), and no error or abort occurs. -/
theorem filter_three_queries :
    Record.Filter rec1 [[50, 52, 53, 97], [54, 53, 48, 120], [49, 48, 48]] =
      some [[[84]], [[74]], [[80]]] := by decide

/-- C5 (counterexample to the claim as stated): the third result group of
`Filter("245a","650x","100")` on `rec1` is the second `650`'s `x` value,
not an empty group for the absent `"100"` query. -/
theorem filter_unmatched_query_cex :
    Record.Filter rec1 [[50, 52, 53, 97], [54, 53, 48, 120], [49, 48, 48]] =
      some [[[84]], [[74]], [[80]]] ∧
    ([[[84]], [[74]], [[80]]] : List (List Str)).get? 2 ≠ some [] := by decide

theorem subFieldInner (subs : List SubField) (s : Str) (acc : List SubField) :
    subs.foldl (fun a f => if f.Code = s then a ++ [f] else a) acc =
      acc ++ subs.filter (fun f => decide (f.Code = s)) := by
  induction subs generalizing acc with
  | nil => simp
  | cons f fs ih =>
    by_cases h : f.Code = s <;> simp [h, ih]

/-- C6 (amended): `SubField` returns the matching subfields grouped by the
order of the *requested codes* — for each requested code in turn, all
subfields with that code in field order — not in the subfields' overall
original order within the field. -/
theorem subfield_grouped (d : DataField) (codes : List Str) :
    d.SubField codes =
      codes.flatMap (fun c => d.SubFields.filter (fun f => decide (f.Code = c))) := by
  suffices h : ∀ acc, codes.foldl
      (fun acc s => d.SubFields.foldl (fun a f => if f.Code = s then a ++ [f] else a) acc) acc =
      acc ++ codes.flatMap (fun c => d.SubFields.filter (fun f => decide (f.Code = c))) by
    simpa [DataField.SubField] using h []
  induction codes with
  | nil => intro acc; simp
  | cons c cs ih =>
    intro acc
    simp only [List.foldl_cons, List.flatMap_cons]
    rw [subFieldInner, ih]
    simp

/-- C6 (counterexample to the claim as stated): on a field whose subfields
are `a` then `b`, requesting codes `("b", "a")` returns the `b` subfield
first — requested-code order, not the subfields' original field order. -/
theorem subfield_requested_order_cex :
    df260.SubField [[98], [97]] = [⟨[98], [50]⟩, ⟨[97], [49]⟩] ∧
    df260.SubField [[98], [97]] ≠ [⟨[97], [49]⟩, ⟨[98], [50]⟩] := by decide

theorem buildSubFields_err_of_mem (cs : List Str) (h : [] ∈ cs) :
    buildSubFields cs = Except.error GoErr.extraneousFieldTerminator := by
  induction cs with
  | nil => simp at h
  | cons c cs ih =>
    rcases c with _ | ⟨x, xs⟩
    · rfl
    · rcases List.mem_cons.mp h with hc | hc
      · exact absurd hc.symm (by simp)
      · simp only [buildSubFields, ih hc]

theorem buildSubFields_ok (cs : List Str) (sfs : List SubField)
    (h : buildSubFields cs = Except.ok sfs) :
    (∀ c ∈ cs, c ≠ []) ∧ ∀ sf ∈ sfs, sf.Code.length = 1 := by
  induction cs generalizing sfs with
  | nil =>
    obtain rfl : ([] : List SubField) = sfs := by simpa [buildSubFields] using h
    simp
  | cons c cs ih =>
    rcases c with _ | ⟨x, xs⟩
    · simp [buildSubFields] at h
    · simp only [buildSubFields] at h
      rcases e : buildSubFields cs with er | rest
      · rw [e] at h
        exact absurd h (by simp)
      · rw [e] at h
        obtain rfl : (⟨[x], xs⟩ : SubField) :: rest = sfs := by simpa using h
        obtain ⟨h1, h2⟩ := ih rest e
        constructor
        · intro c hc
          rcases List.mem_cons.mp hc with rfl | hc
          · simp
          · exact h1 c hc
        · intro sf hsf
          rcases List.mem_cons.mp hsf with rfl | hsf
          · rfl
          · exact h2 sf hsf

/-- C7: splitting a data field's content from byte index 3 onward on the
subfield delimiter never silently yields an empty chunk — if any split
segment is empty, `makeDataField` returns a decode error, and on success
every subfield comes from a non-empty chunk, carrying a one-character
code. -/
theorem makeDataField_chunks (tag data : Str) :
    ((∃ c ∈ splitOnByte st (data.drop 3), c = []) →
      ∃ e, makeDataField tag data = Except.error e) ∧
    ∀ df, makeDataField tag data = Except.ok df →
      (∀ c ∈ splitOnByte st (data.drop 3), c ≠ []) ∧
      ∀ sf ∈ df.SubFields, sf.Code.length = 1 := by
  by_cases hlen : 2 < data.length
  · rcases data with _ | ⟨i1, _ | ⟨i2, d⟩⟩
    · simp at hlen
    · simp at hlen
    · constructor
      · rintro ⟨c, hc, rfl⟩
        refine ⟨GoErr.extraneousFieldTerminator, ?_⟩
        simp only [makeDataField, if_pos hlen]
        rw [buildSubFields_err_of_mem _ hc]
      · intro df h
        simp only [makeDataField, if_pos hlen] at h
        rcases e : buildSubFields (splitOnByte st ((i1 :: i2 :: d).drop 3)) with er | sfs
        · rw [e] at h
          exact absurd h (by simp)
        · rw [e] at h
          obtain rfl : (⟨[i1], [i2], tag, sfs⟩ : DataField) = df := by simpa using h
          exact buildSubFields_ok _ _ e
  · constructor
    · intro _
      exact ⟨GoErr.invalidIndicators, by simp [makeDataField, hlen]⟩
    · intro df h
      simp [makeDataField, hlen] at h

/-- Witness for `makeDataField_chunks`: content `"10\x1f"` splits into one
empty chunk, and decoding it errors. -/
theorem makeDataField_chunks_witness :
    ∃ e, makeDataField [50, 52, 53] [49, 48, 31] = Except.error e :=
  (makeDataField_chunks [50, 52, 53] [49, 48, 31]).1 ⟨[], by decide, rfl⟩

theorem pipeSplit_some (q : Str)
    (hp : ∀ i, indexOfByte 124 q = some i → i + 4 ≤ q.length) :
    ∃ v, pipeSplit q = some v := by
  rcases e : indexOfByte 124 q with _ | i
  · exact ⟨([42], [42], q.drop 3), by simp [pipeSplit, e]⟩
  · have h4 := hp i e
    obtain ⟨a, e1⟩ : ∃ a, q.get? (i + 1) = some a := by
      rcases e1 : q.get? (i + 1) with _ | a
      · rw [List.get?_eq_none] at e1; omega
      · exact ⟨a, rfl⟩
    obtain ⟨b, e2⟩ : ∃ b, q.get? (i + 2) = some b := by
      rcases e2 : q.get? (i + 2) with _ | b
      · rw [List.get?_eq_none] at e2; omega
      · exact ⟨b, rfl⟩
    rw [List.get?_eq_getElem?] at e1 e2
    exact ⟨([a], [b], q.drop (i + 4)), by simp [pipeSplit, e, e1, e2, h4]⟩

theorem filterFields_some (q tag : Str)
    (hp : ∀ i, indexOfByte 124 q = some i → i + 4 ≤ q.length) :
    ∀ fields : List RField, ∃ gs, filterFields q tag fields = some gs := by
  intro fields
  induction fields with
  | nil => exact ⟨[], rfl⟩
  | cons f rest ih =>
    obtain ⟨gs, hgs⟩ := ih
    rcases f with cf | df
    · rcases e : filterFields q tag (.control cf :: rest) with _ | gs2
      · simp [filterFields, hgs] at e
      · exact ⟨gs2, rfl⟩
    · obtain ⟨v, hv⟩ := pipeSplit_some q hp
      obtain ⟨i1, i2, subs⟩ := v
      rcases e : filterFields q tag (.data df :: rest) with _ | gs2
      · simp [filterFields, hv, hgs] at e
      · exact ⟨gs2, rfl⟩

theorem filter_some_of_shaped (r : Record) :
    ∀ qs : List Str,
      (∀ q ∈ qs, 3 ≤ q.length ∧ ∀ i, indexOfByte 124 q = some i → i + 4 ≤ q.length) →
      ∃ gs, r.Filter qs = some gs := by
  intro qs
  induction qs with
  | nil => exact fun _ => ⟨[], rfl⟩
  | cons q qs ih =>
    intro hq
    obtain ⟨h3, hp⟩ := hq q (by simp)
    obtain ⟨gs1, h1⟩ := filterFields_some q (q.take 3) hp r.Fields
    obtain ⟨gs2, h2⟩ := ih (fun x hx => hq x (List.mem_cons_of_mem q hx))
    refine ⟨gs1 ++ gs2, ?_⟩
    simp only [Record.Filter, if_pos h3, h1, h2]
    rfl

/-- C10: `Filter` has an unchecked shape precondition on each query — at
least 3 bytes, and when a `|` occurs at index `i` the query must extend to
index `i + 4` — under which it always returns a result; a query shorter
than 3 bytes always aborts with an out-of-range panic (the `none`
outcome), and the 5-byte query `"650|0"` aborts on a record containing a
data field. -/
theorem filter_query_shape (r : Record) (qs : List Str)
    (hq : ∀ q ∈ qs, 3 ≤ q.length ∧ ∀ i, indexOfByte 124 q = some i → i + 4 ≤ q.length) :
    (∃ gs, r.Filter qs = some gs) ∧
    (∀ (q : Str) (qs2 : List Str), q.length < 3 → Record.Filter r (q :: qs2) = none) ∧
    Record.Filter rec1 [[54, 53, 48, 124, 48]] = none := by
  refine ⟨filter_some_of_shaped r qs hq, ?_, by decide⟩
  intro q qs2 hlt
  simp [Record.Filter, Nat.not_le.mpr hlt]

/-- Witness for `filter_query_shape`: the well-shaped query `"245a"`
filters `rec1` without aborting, while the 2-byte query `"65"` and the
truncated pipe query `"650|0"` abort. -/
theorem filter_query_shape_witness :
    (∃ gs, Record.Filter rec1 [[50, 52, 53, 97]] = some gs) ∧
    Record.Filter rec1 [[54, 53], [50, 52, 53]] = none ∧
    Record.Filter rec1 [[54, 53, 48, 124, 48]] = none := by
  have h := filter_query_shape rec1 [[50, 52, 53, 97]] (by decide)
  exact ⟨h.1, h.2.1 [54, 53] [[50, 52, 53]] (by decide), h.2.2⟩
